import Mathlib

/-!
Shallow embedding of the DhristiAI real-time pipeline.

The embedded code comes from two source files:

* `People_Counter.py`, function `count_people_live_camera`: per-frame track
  association (lines 122-132), line-crossing counting (lines 134-143), the
  capacity alert (lines 149-165), the frame-rate control (lines 204-210),
  the broken-pipe handling of the ffmpeg write (lines 191-196) and the
  cleanup block (lines 215-221).
* `AI_RTMP_Server/main.py`: `get_crowd_risk` (lines 41-45), `get_crowd_status`
  (lines 47-51) and `process_frame_realtime` (lines 65-135), in particular the
  guarded density computation (line 84) and the periodic face-match gate
  (line 91).

Machine reals (Python floats) are modelled as rationals; integer pixel
coordinates as `Int`. Python dicts (insertion ordered, value update in place)
are modelled as association lists with an insert-or-overwrite operation.
-/

namespace DhristiAI

/-- A centroid `(cx, cy)` in pixel coordinates. -/
abbrev Centroid := Int × Int

/-- A track entry as stored in the Python dict `tracked`:
key `id`, value the pair `(centroid, counted)`. -/
abbrev TrackEntry := Nat × Centroid × Bool

/-- Squared Euclidean distance between two centroids.  For integer
coordinates, `np.linalg.norm(c - old_c) < 50` holds iff `dist2 c old_c < 2500`,
since both sides are nonnegative. -/
def dist2 (a b : Centroid) : Int :=
  (a.1 - b.1) * (a.1 - b.1) + (a.2 - b.2) * (a.2 - b.2)

/-- Python dict assignment `d[k] = v` on an insertion-ordered dict:
if `k` is present its value is replaced in place, otherwise `(k, v)` is
appended at the end. -/
def dictInsert (d : List (Nat × α)) (k : Nat) (v : α) : List (Nat × α) :=
  match d with
  | [] => [(k, v)]
  | (k', v') :: rest =>
      if k' = k then (k, v) :: rest else (k', v') :: dictInsert rest k v

/-- The inner loop of the association step (`People_Counter.py` lines
125-129): scan the previous frame's `tracked` dict in insertion order and
stop at the first track whose centroid is within distance 50 of `c`. -/
def findFirstMatch (tracked : List TrackEntry) (c : Centroid) : Option TrackEntry :=
  tracked.find? (fun p => dist2 c p.2.1 < 2500)

/-- The association loop (`People_Counter.py` lines 122-132): for each
detection `c` in input order, either the first old track within distance 50
is claimed (its id keeps the old `counted` flag and gets the new centroid),
or a fresh id is allocated with `counted = false`.  The accumulator is the
pair `(new_tracked, next_id)`. -/
def assignLoop (tracked : List TrackEntry) :
    List TrackEntry × Nat → List Centroid → List TrackEntry × Nat
  | acc, [] => acc
  | acc, c :: rest =>
      match findFirstMatch tracked c with
      | some q => assignLoop tracked (dictInsert acc.1 q.1 (c, q.2.2), acc.2) rest
      | none => assignLoop tracked (dictInsert acc.1 acc.2 (c, false), acc.2 + 1) rest

/-- One full association step for a frame: build `new_tracked` from scratch
(`new_tracked = {}` at line 122) and process all detections. -/
def assignFrame (tracked : List TrackEntry) (nextId : Nat) (cs : List Centroid) :
    List TrackEntry × Nat :=
  assignLoop tracked ([], nextId) cs

/-- The crossing predicate (`People_Counter.py` lines 136 and 139):
for direction `"down"`, the centroid's y coordinate strictly exceeds the
line position; for `"up"`, it is strictly below it. -/
def crosses (direction : String) (linePosition : Int) (c : Centroid) : Bool :=
  if direction = "down" then decide (linePosition < c.2)
  else if direction = "up" then decide (c.2 < linePosition)
  else false

/-- The counting loop (`People_Counter.py` lines 134-141): every entry of
`new_tracked` whose `counted` flag is false and whose centroid satisfies the
crossing predicate gets its flag set to true and contributes one increment.
Returns the updated dict and the number of increments. -/
def countFrame (direction : String) (linePosition : Int) :
    List TrackEntry → List TrackEntry × Nat
  | [] => ([], 0)
  | (id, c, counted) :: rest =>
      let r := countFrame direction linePosition rest
      if !counted && crosses direction linePosition c then
        ((id, c, true) :: r.1, r.2 + 1)
      else
        ((id, c, counted) :: r.1, r.2)

/-- The mutable state of one pipeline run of `count_people_live_camera`:
the live track dict, the next fresh id, the occupancy counter and the
notification counter `send_counter`. -/
structure PCState where
  tracked : List TrackEntry
  nextId : Nat
  totalCount : Nat
  sendCounter : Nat
deriving DecidableEq

/-- The per-session configuration of `count_people_live_camera`. -/
structure Config where
  direction : String
  linePosition : Int
  thresholdCount : Nat
deriving DecidableEq

/-- The initial state at function entry (`People_Counter.py` lines 41, 91-93):
`send_counter = 0`, `tracked = {}`, `next_id = 0`, `total_count = 0`. -/
def initState : PCState := ⟨[], 0, 0, 0⟩

/-- One frame of the tracking/counting/alert logic: association
(lines 122-132), counting (lines 134-143, `tracked = new_tracked`), then
the capacity alert (lines 149-165): a notification is sent iff
`total_count > threshold_count` and `send_counter < 1`, in which case
`send_counter` is incremented.  Returns the new state and the number of
notifications sent this frame. -/
def stepFrame (cfg : Config) (s : PCState) (cs : List Centroid) : PCState × Nat :=
  let a := assignFrame s.tracked s.nextId cs
  let r := countFrame cfg.direction cfg.linePosition a.1
  let total := s.totalCount + r.2
  if cfg.thresholdCount < total ∧ s.sendCounter < 1 then
    (⟨r.1, a.2, total, s.sendCounter + 1⟩, 1)
  else
    (⟨r.1, a.2, total, s.sendCounter⟩, 0)

/-- Run the per-frame logic over a list of frames (each frame given by its
detected person centroids), accumulating the number of notifications sent. -/
def runFrames (cfg : Config) : PCState → List (List Centroid) → PCState × Nat
  | s, [] => (s, 0)
  | s, cs :: rest =>
      let p := stepFrame cfg s cs
      let q := runFrames cfg p.1 rest
      (q.1, p.2 + q.2)

/-- `get_crowd_risk` (`AI_RTMP_Server/main.py` lines 41-45). -/
def get_crowd_risk (density : ℚ) : String :=
  if density < 0.0001 then "Low"
  else if density < 0.00015 then "Medium"
  else if density < 0.0002 then "High"
  else "Critical"

/-- `get_crowd_status` (`AI_RTMP_Server/main.py` lines 47-51). -/
def get_crowd_status (density : ℚ) : String :=
  if density < 0.0001 then "Stable"
  else if density < 0.00015 then "Unstable"
  else if density < 0.0002 then "Congested"
  else "Critical"

/-- Position of a risk label in the tier order Low < Medium < High < Critical,
used to state monotonicity of the classifier. -/
def tierIndex (label : String) : Nat :=
  if label = "Low" then 0
  else if label = "Medium" then 1
  else if label = "High" then 2
  else 3

/-- The guarded density computation (`AI_RTMP_Server/main.py` line 84):
`density = people_count / frame_area if frame_area > 0 else 0`. -/
def densityOf (peopleCount frameArea : ℕ) : ℚ :=
  if 0 < frameArea then (peopleCount : ℚ) / (frameArea : ℚ) else 0

/-- The pixel area of the resized frame in `process_frame_realtime`
(line 70 resizes to 640x480, line 72 takes `shape[0] * shape[1]`). -/
def resizedFrameArea : ℕ := 480 * 640

/-- The periodic face-match gate (`AI_RTMP_Server/main.py` line 91):
`os.listdir(DEEPFACE_DB_PATH) and frame_count % 30 == 0 and people_count > 0`.
The registry is the list of files in the reference face directory. -/
def faceMatchGate (registry : List String) (frameCount peopleCount : Nat) : Bool :=
  !registry.isEmpty && frameCount % 30 == 0 && decide (0 < peopleCount)

/-- The recognized-identity list produced for a frame
(`AI_RTMP_Server/main.py` lines 89-108): `detected_persons` starts empty and
is only ever assigned inside the gated block; `findOutcome` stands for
whatever list the external DeepFace call produces there (the empty list when
the call raises and the exception handler at line 107 runs). -/
def detectedPersonsResult (registry : List String) (frameCount peopleCount : Nat)
    (findOutcome : List String) : List String :=
  if faceMatchGate registry frameCount peopleCount then findOutcome else []

/-- The frame-rate control (`People_Counter.py` lines 204-210):
`sleep_time = frame_interval - processing_time`; sleep for `sleep_time` iff
it is positive, otherwise warn iff the source is not the live camera.
Returns `(sleep duration, warning emitted)`. -/
def frameRateControl (showCam : Bool) (frameInterval processingTime : ℚ) : ℚ × Bool :=
  let sleepTime := frameInterval - processingTime
  if 0 < sleepTime then (sleepTime, false)
  else if !showCam then (0, true)
  else (0, false)

/-- Outcome of one `ffmpeg_process.stdin.write` call
(`People_Counter.py` line 192). -/
inductive WriteResult where
  | ok
  | brokenPipe
deriving DecidableEq

/-- The number of frames the capture loop reads
(`People_Counter.py` lines 100-210) when iteration `i` of the environment
offers `(ret, w)`: `ret` is the success flag of `cap.read()` (line 103;
failure breaks the loop at line 106) and `w` is the outcome of the stdin
write (lines 191-196; `BrokenPipeError` is caught and breaks the loop, so it
does not propagate out of the loop body). -/
def captureLoopFramesRead : List (Bool × WriteResult) → Nat
  | [] => 0
  | (ret, w) :: rest =>
      if ret then
        match w with
        | .brokenPipe => 1
        | .ok => 1 + captureLoopFramesRead rest
      else 0

/-- The cleanup actions of the `finally` block, in order. -/
inductive CleanupAction where
  | releaseCapture
  | destroyAllWindows
  | closeStdin
  | terminateProc
  | waitProc
deriving DecidableEq

/-- The `finally` block (`People_Counter.py` lines 215-221): always release
the capture and destroy the windows; if `ffmpeg_process.poll()` is `None`
(the subprocess is still alive), also close its stdin, terminate it and wait
on it. -/
def cleanupSteps (ffmpegAlive : Bool) : List CleanupAction :=
  [.releaseCapture, .destroyAllWindows] ++
    (if ffmpegAlive then [.closeStdin, .terminateProc, .waitProc] else [])

/-- Observable summary of one streaming session: `subprocess.Popen` is called
exactly once, before the loop (line 89), and nowhere inside it; the loop reads
as many frames as `captureLoopFramesRead` says; the `finally` block always
runs. -/
structure SessionResult where
  framesRead : Nat
  ffmpegSpawns : Nat
  cleanup : List CleanupAction
deriving DecidableEq

/-- One whole session of `count_people_live_camera`, at the level of frame
reads, subprocess spawns and cleanup.  `ffmpegAliveAtExit` is the value of
`ffmpeg_process.poll() is None` when the `finally` block runs. -/
def runStreamSession (iters : List (Bool × WriteResult)) (ffmpegAliveAtExit : Bool) :
    SessionResult :=
  ⟨captureLoopFramesRead iters, 1, cleanupSteps ffmpegAliveAtExit⟩

/-- The keys of an association list, in insertion order. -/
def keysOf (d : List (Nat × α)) : List Nat := d.map Prod.fst

/-- The keys of a dict are pairwise distinct.  This holds for every dict the
Python code builds (`new_tracked` starts empty and grows by `dictInsert`). -/
def NodupKeys (d : List (Nat × α)) : Prop := (keysOf d).Nodup

/-- What the counting loop does to one entry: set `counted` to true when the
flag is still false and the centroid satisfies the crossing predicate. -/
def flipEntry (direction : String) (linePosition : Int) (p : TrackEntry) : TrackEntry :=
  if !p.2.2 && crosses direction linePosition p.2.1 then (p.1, p.2.1, true) else p

/-- The predicate saying the counting loop increments on an entry. -/
def incrAt (direction : String) (linePosition : Int) (p : TrackEntry) : Bool :=
  !p.2.2 && crosses direction linePosition p.2.1

/-- Modelled from the claim's words, NOT from the code: an association loop
in which a detection may only claim a track that no earlier detection of the
same frame has already claimed (claimed tracks are the keys of the
accumulator).  The code has no such check; this definition exists to exhibit
where the two disagree. -/
def assignLoopClaim (tracked : List TrackEntry) :
    List TrackEntry × Nat → List Centroid → List TrackEntry × Nat
  | acc, [] => acc
  | acc, c :: rest =>
      match tracked.find?
          (fun p => decide (dist2 c p.2.1 < 2500) && !((keysOf acc.1).contains p.1)) with
      | some q => assignLoopClaim tracked (dictInsert acc.1 q.1 (c, q.2.2), acc.2) rest
      | none => assignLoopClaim tracked (dictInsert acc.1 acc.2 (c, false), acc.2 + 1) rest

/-- One frame of the claim-modelled association (see `assignLoopClaim`). -/
def assignFrameClaim (tracked : List TrackEntry) (nextId : Nat) (cs : List Centroid) :
    List TrackEntry × Nat :=
  assignLoopClaim tracked ([], nextId) cs

/-- Concrete live set used to witness the association properties: track 0 at
(0,0) not yet counted, track 5 at (100,100) already counted. -/
def exTracked : List TrackEntry := [(0, (0, 0), false), (5, (100, 100), true)]

/-- Concrete detections used to witness the association properties: (3,4)
claims track 0 (distance 5), (200,200) matches nothing and spawns. -/
def exDets : List Centroid := [(3, 4), (200, 200)]

/-- Concrete configuration used by the witnesses: direction `down`, counting
line at y = 300, capacity threshold 30. -/
def exCfg : Config := ⟨"down", 300, 30⟩

/-- Concrete mid-run state used by the witnesses. -/
def exState : PCState := ⟨exTracked, 6, 2, 0⟩

/-- Concrete frame sequence used by the witnesses. -/
def exFrames : List (List Centroid) := [[(3, 4)], [(100, 310)]]

/-- Concrete loop iterations before the broken pipe: one frame read and
written successfully. -/
def exPre : List (Bool × WriteResult) := [(true, WriteResult.ok)]

/-- Concrete loop iterations offered after the broken pipe (never reached). -/
def exPost : List (Bool × WriteResult) := [(true, WriteResult.ok)]

/-! ### Association-list (Python dict) lemmas -/

lemma keysOf_nil : keysOf ([] : List (Nat × α)) = [] := rfl

lemma keysOf_cons (p : Nat × α) (d : List (Nat × α)) :
    keysOf (p :: d) = p.1 :: keysOf d := rfl

lemma mem_keysOf {d : List (Nat × α)} {k : Nat} :
    k ∈ keysOf d ↔ ∃ v, (k, v) ∈ d := by
  constructor
  · intro h
    obtain ⟨p, hp, hk⟩ := List.mem_map.mp h
    exact ⟨p.2, by simpa [← hk] using hp⟩
  · rintro ⟨v, hv⟩
    exact List.mem_map.mpr ⟨(k, v), hv, rfl⟩

lemma keysOf_dictInsert (d : List (Nat × α)) (k : Nat) (v : α) :
    keysOf (dictInsert d k v) =
      if k ∈ keysOf d then keysOf d else keysOf d ++ [k] := by
  induction d with
  | nil => simp [dictInsert, keysOf]
  | cons hd tl ih =>
      obtain ⟨k', v'⟩ := hd
      by_cases h : k' = k
      · subst h
        simp [dictInsert, keysOf_cons]
      · rw [show dictInsert ((k', v') :: tl) k v
              = (k', v') :: dictInsert tl k v by simp [dictInsert, h]]
        rw [keysOf_cons, keysOf_cons, ih]
        have hne : ¬ k = k' := fun hc => h hc.symm
        by_cases hmem : k ∈ keysOf tl
        · simp [hmem, hne]
        · simp [hmem, hne]

lemma mem_dictInsert_self (d : List (Nat × α)) (k : Nat) (v : α) :
    (k, v) ∈ dictInsert d k v := by
  induction d with
  | nil => simp [dictInsert]
  | cons hd tl ih =>
      obtain ⟨k', v'⟩ := hd
      by_cases h : k' = k
      · simp [dictInsert, h]
      · rw [show dictInsert ((k', v') :: tl) k v
              = (k', v') :: dictInsert tl k v by simp [dictInsert, h]]
        exact List.mem_cons_of_mem _ ih

lemma mem_dictInsert_of_ne {d : List (Nat × α)} {p : Nat × α} {k : Nat} {v : α}
    (hne : p.1 ≠ k) (hp : p ∈ d) : p ∈ dictInsert d k v := by
  induction d with
  | nil => cases hp
  | cons hd tl ih =>
      obtain ⟨k', v'⟩ := hd
      by_cases h : k' = k
      · rw [show dictInsert ((k', v') :: tl) k v = (k, v) :: tl by simp [dictInsert, h]]
        rcases List.mem_cons.mp hp with h1 | h1
        · exact absurd (by rw [h1, ← h]) hne
        · exact List.mem_cons_of_mem _ h1
      · rw [show dictInsert ((k', v') :: tl) k v
              = (k', v') :: dictInsert tl k v by simp [dictInsert, h]]
        rcases List.mem_cons.mp hp with h1 | h1
        · exact h1 ▸ List.mem_cons_self _ _
        · exact List.mem_cons_of_mem _ (ih h1)

lemma of_mem_dictInsert {d : List (Nat × α)} {p : Nat × α} {k : Nat} {v : α}
    (hd : NodupKeys d) (hp : p ∈ dictInsert d k v) :
    p = (k, v) ∨ (p ∈ d ∧ p.1 ≠ k) := by
  induction d with
  | nil =>
      rcases List.mem_singleton.mp (by simpa [dictInsert] using hp) with h
      exact Or.inl h
  | cons hd' tl ih =>
      obtain ⟨k', v'⟩ := hd'
      have hnodup_tl : NodupKeys tl := by
        have := hd
        simp [NodupKeys, keysOf_cons] at this
        exact this.2
      have hk'_not : k' ∉ keysOf tl := by
        have := hd
        simp [NodupKeys, keysOf_cons] at this
        exact this.1
      by_cases h : k' = k
      · subst h
        rw [show dictInsert ((k', v') :: tl) k' v = (k', v) :: tl by simp [dictInsert]] at hp
        rcases List.mem_cons.mp hp with h1 | h1
        · exact Or.inl h1
        · refine Or.inr ⟨List.mem_cons_of_mem _ h1, ?_⟩
          intro hc
          exact hk'_not (mem_keysOf.mpr ⟨p.2, by rw [← hc]; simpa using h1⟩)
      · rw [show dictInsert ((k', v') :: tl) k v
              = (k', v') :: dictInsert tl k v by simp [dictInsert, h]] at hp
        rcases List.mem_cons.mp hp with h1 | h1
        · exact Or.inr ⟨h1 ▸ List.mem_cons_self _ _, by rw [h1]; exact h⟩
        · rcases ih hnodup_tl h1 with h2 | h2
          · exact Or.inl h2
          · exact Or.inr ⟨List.mem_cons_of_mem _ h2.1, h2.2⟩

lemma nodupKeys_dictInsert {d : List (Nat × α)} (hd : NodupKeys d) (k : Nat) (v : α) :
    NodupKeys (dictInsert d k v) := by
  unfold NodupKeys
  rw [keysOf_dictInsert]
  by_cases h : k ∈ keysOf d
  · simpa [h] using hd
  · simp only [h, if_false]
    rw [List.nodup_append]
    exact ⟨hd, List.nodup_singleton _,
      fun a ha hb => h (by rwa [List.mem_singleton.mp hb] at ha)⟩

lemma mem_keysOf_dictInsert_self (d : List (Nat × α)) (k : Nat) (v : α) :
    k ∈ keysOf (dictInsert d k v) :=
  mem_keysOf.mpr ⟨v, mem_dictInsert_self d k v⟩

lemma mem_keysOf_dictInsert_of_mem {d : List (Nat × α)} {k' : Nat}
    (h : k' ∈ keysOf d) (k : Nat) (v : α) : k' ∈ keysOf (dictInsert d k v) := by
  rw [keysOf_dictInsert]
  by_cases hk : k ∈ keysOf d
  · simpa [hk] using h
  · simp only [hk, if_false]
    exact List.mem_append_left _ h

lemma mem_dictInsert_weak {d : List (Nat × α)} {p : Nat × α} {k : Nat} {v : α}
    (hp : p ∈ dictInsert d k v) : p = (k, v) ∨ p ∈ d := by
  induction d with
  | nil => exact Or.inl (List.mem_singleton.mp (by simpa [dictInsert] using hp))
  | cons hd tl ih =>
      obtain ⟨k', v'⟩ := hd
      by_cases h : k' = k
      · rw [show dictInsert ((k', v') :: tl) k v = (k, v) :: tl by simp [dictInsert, h]] at hp
        rcases List.mem_cons.mp hp with h1 | h1
        · exact Or.inl h1
        · exact Or.inr (List.mem_cons_of_mem _ h1)
      · rw [show dictInsert ((k', v') :: tl) k v
              = (k', v') :: dictInsert tl k v by simp [dictInsert, h]] at hp
        rcases List.mem_cons.mp hp with h1 | h1
        · exact Or.inr (h1 ▸ List.mem_cons_self _ _)
        · rcases ih h1 with h2 | h2
          · exact Or.inl h2
          · exact Or.inr (List.mem_cons_of_mem _ h2)

/-! ### Association loop lemmas -/

lemma assignLoop_cons_some {tracked : List TrackEntry} {c : Centroid} {q : TrackEntry}
    (hm : findFirstMatch tracked c = some q) (nt : List TrackEntry) (nid : Nat)
    (rest : List Centroid) :
    assignLoop tracked (nt, nid) (c :: rest)
      = assignLoop tracked (dictInsert nt q.1 (c, q.2.2), nid) rest := by
  simp [assignLoop, hm]

lemma assignLoop_cons_none {tracked : List TrackEntry} {c : Centroid}
    (hm : findFirstMatch tracked c = none) (nt : List TrackEntry) (nid : Nat)
    (rest : List Centroid) :
    assignLoop tracked (nt, nid) (c :: rest)
      = assignLoop tracked (dictInsert nt nid (c, false), nid + 1) rest := by
  simp [assignLoop, hm]

/-- Fresh ids only increase during the association loop. -/
lemma assignLoop_nid_mono (tracked : List TrackEntry) (nt : List TrackEntry)
    (nid : Nat) (cs : List Centroid) :
    nid ≤ (assignLoop tracked (nt, nid) cs).2 := by
  induction cs generalizing nt nid with
  | nil => exact le_refl _
  | cons c rest ih =>
      cases hm : findFirstMatch tracked c with
      | some q =>
          rw [assignLoop_cons_some hm]
          exact ih _ _
      | none =>
          rw [assignLoop_cons_none hm]
          exact le_trans (Nat.le_succ _) (ih _ _)

/-- The association loop allocates exactly one fresh id per unmatched
detection. -/
lemma assignLoop_nid_eq (tracked : List TrackEntry) (nt : List TrackEntry)
    (nid : Nat) (cs : List Centroid) :
    (assignLoop tracked (nt, nid) cs).2
      = nid + (cs.filter (fun c => (findFirstMatch tracked c).isNone)).length := by
  induction cs generalizing nt nid with
  | nil => simp [assignLoop]
  | cons c rest ih =>
      cases hm : findFirstMatch tracked c with
      | some q =>
          rw [assignLoop_cons_some hm, ih]
          simp [hm]
      | none =>
          rw [assignLoop_cons_none hm, ih]
          simp [hm]
          omega

/-- The association loop keeps dict keys pairwise distinct. -/
lemma assignLoop_nodup {tracked : List TrackEntry} {nt : List TrackEntry}
    (hnt : NodupKeys nt) (nid : Nat) (cs : List Centroid) :
    NodupKeys (assignLoop tracked (nt, nid) cs).1 := by
  induction cs generalizing nt nid with
  | nil => exact hnt
  | cons c rest ih =>
      cases hm : findFirstMatch tracked c with
      | some q =>
          rw [assignLoop_cons_some hm]
          exact ih (nodupKeys_dictInsert hnt _ _) _
      | none =>
          rw [assignLoop_cons_none hm]
          exact ih (nodupKeys_dictInsert hnt _ _) _

/-- Provenance of entries of the association result: each entry was already
in the accumulator, or records a claimed old track (first match of some
detection, with the old `counted` flag and the new centroid), or is a fresh
track (`counted = false`, id at least `nid`, centroid an unmatched
detection). -/
lemma assignLoop_provenance (tracked : List TrackEntry) (nt : List TrackEntry)
    (nid : Nat) (cs : List Centroid) :
    ∀ p ∈ (assignLoop tracked (nt, nid) cs).1,
      p ∈ nt ∨
      (∃ c ∈ cs, ∃ x, findFirstMatch tracked c = some (p.1, x, p.2.2) ∧ p.2.1 = c) ∨
      (nid ≤ p.1 ∧ p.2.2 = false ∧ p.2.1 ∈ cs ∧ findFirstMatch tracked p.2.1 = none) := by
  induction cs generalizing nt nid with
  | nil => exact fun p hp => Or.inl hp
  | cons c rest ih =>
      intro p hp
      cases hm : findFirstMatch tracked c with
      | some q =>
          rw [assignLoop_cons_some hm] at hp
          rcases ih _ _ p hp with h1 | h1 | h1
          · rcases mem_dictInsert_weak h1 with h2 | h2
            · refine Or.inr (Or.inl ⟨c, List.mem_cons_self _ _, q.2.1, ?_, ?_⟩)
              · rw [h2]
                simpa using hm
              · rw [h2]
            · exact Or.inl h2
          · obtain ⟨c', hc', hx⟩ := h1
            exact Or.inr (Or.inl ⟨c', List.mem_cons_of_mem _ hc', hx⟩)
          · exact Or.inr (Or.inr ⟨h1.1, h1.2.1, List.mem_cons_of_mem _ h1.2.2.1, h1.2.2.2⟩)
      | none =>
          rw [assignLoop_cons_none hm] at hp
          rcases ih _ _ p hp with h1 | h1 | h1
          · rcases mem_dictInsert_weak h1 with h2 | h2
            · refine Or.inr (Or.inr ⟨?_, ?_, ?_, ?_⟩)
              · rw [h2]
              · rw [h2]
              · rw [h2]
                exact List.mem_cons_self _ _
              · rw [h2]
                exact hm
            · exact Or.inl h2
          · obtain ⟨c', hc', hx⟩ := h1
            exact Or.inr (Or.inl ⟨c', List.mem_cons_of_mem _ hc', hx⟩)
          · exact Or.inr (Or.inr ⟨le_trans (Nat.le_succ _) h1.1, h1.2.1,
              List.mem_cons_of_mem _ h1.2.2.1, h1.2.2.2⟩)

/-- An accumulator entry whose key is neither an old track id nor a
candidate fresh id survives the rest of the association loop untouched. -/
lemma assignLoop_preserve {tracked : List TrackEntry} {p : TrackEntry}
    {nt : List TrackEntry} {nid : Nat} (cs : List Centroid) (hp : p ∈ nt)
    (htr : ∀ q ∈ tracked, q.1 ≠ p.1) (hlt : p.1 < nid) :
    p ∈ (assignLoop tracked (nt, nid) cs).1 := by
  induction cs generalizing nt nid with
  | nil => exact hp
  | cons c rest ih =>
      cases hm : findFirstMatch tracked c with
      | some q =>
          rw [assignLoop_cons_some hm]
          refine ih (mem_dictInsert_of_ne ?_ hp) hlt
          exact fun hc => htr q (List.mem_of_find?_eq_some hm) hc.symm
      | none =>
          rw [assignLoop_cons_none hm]
          refine ih (mem_dictInsert_of_ne ?_ hp) (Nat.lt_succ_of_lt hlt)
          exact Nat.ne_of_lt hlt

/-- Keys already present in the accumulator are still present after the
association loop. -/
lemma assignLoop_keys_mono {tracked : List TrackEntry} {k : Nat}
    {nt : List TrackEntry} {nid : Nat} (cs : List Centroid) (h : k ∈ keysOf nt) :
    k ∈ keysOf (assignLoop tracked (nt, nid) cs).1 := by
  induction cs generalizing nt nid with
  | nil => exact h
  | cons c rest ih =>
      cases hm : findFirstMatch tracked c with
      | some q =>
          rw [assignLoop_cons_some hm]
          exact ih (mem_keysOf_dictInsert_of_mem h _ _)
      | none =>
          rw [assignLoop_cons_none hm]
          exact ih (mem_keysOf_dictInsert_of_mem h _ _)

/-- Every track claimed by some detection is present in the association
result. -/
lemma assignLoop_claimed (tracked : List TrackEntry) (nt : List TrackEntry)
    (nid : Nat) (cs : List Centroid) :
    ∀ c ∈ cs, ∀ q, findFirstMatch tracked c = some q →
      q.1 ∈ keysOf (assignLoop tracked (nt, nid) cs).1 := by
  induction cs generalizing nt nid with
  | nil => intro c hc; cases hc
  | cons c rest ih =>
      intro c' hc' q hq
      rcases List.mem_cons.mp hc' with h1 | h1
      · rw [h1] at hq
        rw [assignLoop_cons_some hq]
        exact assignLoop_keys_mono _ (mem_keysOf_dictInsert_self _ _ _)
      · cases hm : findFirstMatch tracked c with
        | some q0 =>
            rw [assignLoop_cons_some hm]
            exact ih _ _ c' h1 q hq
        | none =>
            rw [assignLoop_cons_none hm]
            exact ih _ _ c' h1 q hq

/-- Every unmatched detection spawns a fresh track with `counted = false`
that is present in the association result.  Requires all old ids to be below
the fresh-id counter, which holds throughout every real run. -/
lemma assignLoop_spawn {tracked : List TrackEntry} {nt : List TrackEntry}
    {nid : Nat} (cs : List Centroid) (hfresh : ∀ q ∈ tracked, q.1 < nid) :
    ∀ c ∈ cs, findFirstMatch tracked c = none →
      ∃ id, nid ≤ id ∧ (id, c, false) ∈ (assignLoop tracked (nt, nid) cs).1 := by
  induction cs generalizing nt nid with
  | nil => intro c hc; cases hc
  | cons c rest ih =>
      intro c' hc' hnone
      rcases List.mem_cons.mp hc' with h1 | h1
      · subst h1
        refine ⟨nid, le_refl _, ?_⟩
        rw [assignLoop_cons_none hnone]
        refine assignLoop_preserve rest (mem_dictInsert_self nt nid (c', false))
          ?_ (Nat.lt_succ_self _)
        exact fun q hq => Nat.ne_of_lt (hfresh q hq)
      · cases hm : findFirstMatch tracked c with
        | some q0 =>
            rw [assignLoop_cons_some hm]
            exact ih hfresh c' h1 hnone
        | none =>
            rw [assignLoop_cons_none hm]
            obtain ⟨id, hid, hmem⟩ :=
              ih (fun q hq => Nat.lt_succ_of_lt (hfresh q hq)) c' h1 hnone
            exact ⟨id, le_trans (Nat.le_succ _) hid, hmem⟩

/-- All keys of the association result are below the final fresh-id
counter, provided that held of the accumulator and the old tracks. -/
lemma assignLoop_keys_lt {tracked : List TrackEntry} {nt : List TrackEntry}
    {nid : Nat} (cs : List Centroid) (hacc : ∀ p ∈ nt, p.1 < nid)
    (htr : ∀ q ∈ tracked, q.1 < nid) :
    ∀ p ∈ (assignLoop tracked (nt, nid) cs).1, p.1 < (assignLoop tracked (nt, nid) cs).2 := by
  induction cs generalizing nt nid with
  | nil => exact hacc
  | cons c rest ih =>
      cases hm : findFirstMatch tracked c with
      | some q =>
          rw [assignLoop_cons_some hm]
          refine ih ?_ htr
          intro p hp
          rcases mem_dictInsert_weak hp with h1 | h1
          · rw [h1]
            exact htr q (List.mem_of_find?_eq_some hm)
          · exact hacc p h1
      | none =>
          rw [assignLoop_cons_none hm]
          refine ih ?_ (fun q hq => Nat.lt_succ_of_lt (htr q hq))
          intro p hp
          rcases mem_dictInsert_weak hp with h1 | h1
          · rw [h1]
            exact Nat.lt_succ_self _
          · exact Nat.lt_succ_of_lt (hacc p h1)

/-! ### Counting loop lemmas -/

lemma countFrame_fst (direction : String) (linePosition : Int) (nt : List TrackEntry) :
    (countFrame direction linePosition nt).1 = nt.map (flipEntry direction linePosition) := by
  induction nt with
  | nil => rfl
  | cons p rest ih =>
      obtain ⟨id, c, counted⟩ := p
      by_cases h : (!counted && crosses direction linePosition c) = true
      · simp [countFrame, flipEntry, h, ih]
      · simp [countFrame, flipEntry, h, ih]

lemma countFrame_snd (direction : String) (linePosition : Int) (nt : List TrackEntry) :
    (countFrame direction linePosition nt).2
      = (nt.filter (incrAt direction linePosition)).length := by
  induction nt with
  | nil => rfl
  | cons p rest ih =>
      obtain ⟨id, c, counted⟩ := p
      by_cases h : (!counted && crosses direction linePosition c) = true
      · simp [countFrame, incrAt, h, ih]
      · simp [countFrame, incrAt, h, ih]

lemma flipEntry_fst (direction : String) (linePosition : Int) (p : TrackEntry) :
    (flipEntry direction linePosition p).1 = p.1 := by
  unfold flipEntry
  split <;> rfl

lemma flipEntry_of_counted {direction : String} {linePosition : Int} {p : TrackEntry}
    (h : p.2.2 = true) : flipEntry direction linePosition p = p := by
  unfold flipEntry
  simp [h]

lemma keysOf_countFrame (direction : String) (linePosition : Int) (nt : List TrackEntry) :
    keysOf (countFrame direction linePosition nt).1 = keysOf nt := by
  rw [countFrame_fst]
  unfold keysOf
  rw [List.map_map]
  simp [Function.comp_def, flipEntry_fst]

/-! ### Per-frame step lemmas -/

lemma stepFrame_def (cfg : Config) (s : PCState) (cs : List Centroid) :
    stepFrame cfg s cs =
      (⟨(countFrame cfg.direction cfg.linePosition (assignFrame s.tracked s.nextId cs).1).1,
        (assignFrame s.tracked s.nextId cs).2,
        s.totalCount
          + (countFrame cfg.direction cfg.linePosition (assignFrame s.tracked s.nextId cs).1).2,
        if cfg.thresholdCount
              < s.totalCount
                + (countFrame cfg.direction cfg.linePosition
                    (assignFrame s.tracked s.nextId cs).1).2
            ∧ s.sendCounter < 1
        then s.sendCounter + 1 else s.sendCounter⟩,
       if cfg.thresholdCount
             < s.totalCount
               + (countFrame cfg.direction cfg.linePosition
                   (assignFrame s.tracked s.nextId cs).1).2
           ∧ s.sendCounter < 1
       then 1 else 0) := by
  simp only [stepFrame]
  split <;> rfl

lemma stepFrame_tracked (cfg : Config) (s : PCState) (cs : List Centroid) :
    (stepFrame cfg s cs).1.tracked
      = (countFrame cfg.direction cfg.linePosition (assignFrame s.tracked s.nextId cs).1).1 := by
  rw [stepFrame_def]

lemma stepFrame_nextId (cfg : Config) (s : PCState) (cs : List Centroid) :
    (stepFrame cfg s cs).1.nextId = (assignFrame s.tracked s.nextId cs).2 := by
  rw [stepFrame_def]

lemma stepFrame_totalCount (cfg : Config) (s : PCState) (cs : List Centroid) :
    (stepFrame cfg s cs).1.totalCount
      = s.totalCount
        + (countFrame cfg.direction cfg.linePosition (assignFrame s.tracked s.nextId cs).1).2 := by
  rw [stepFrame_def]

lemma stepFrame_totalCount_mono (cfg : Config) (s : PCState) (cs : List Centroid) :
    s.totalCount ≤ (stepFrame cfg s cs).1.totalCount := by
  rw [stepFrame_totalCount]
  exact Nat.le_add_right _ _

lemma stepFrame_sendCounter (cfg : Config) (s : PCState) (cs : List Centroid) :
    (stepFrame cfg s cs).1.sendCounter
      = if cfg.thresholdCount < (stepFrame cfg s cs).1.totalCount ∧ s.sendCounter < 1
        then s.sendCounter + 1 else s.sendCounter := by
  rw [stepFrame_totalCount, stepFrame_def]

lemma stepFrame_sent (cfg : Config) (s : PCState) (cs : List Centroid) :
    (stepFrame cfg s cs).2
      = if cfg.thresholdCount < (stepFrame cfg s cs).1.totalCount ∧ s.sendCounter < 1
        then 1 else 0 := by
  rw [stepFrame_totalCount, stepFrame_def]

lemma stepFrame_nextId_mono (cfg : Config) (s : PCState) (cs : List Centroid) :
    s.nextId ≤ (stepFrame cfg s cs).1.nextId := by
  rw [stepFrame_nextId]
  exact assignLoop_nid_mono _ _ _ _

lemma stepFrame_nodup (cfg : Config) (s : PCState) (cs : List Centroid) :
    NodupKeys (stepFrame cfg s cs).1.tracked := by
  rw [stepFrame_tracked]
  unfold NodupKeys
  rw [keysOf_countFrame]
  exact assignLoop_nodup (by simp [NodupKeys, keysOf]) _ _

lemma stepFrame_keys_lt (cfg : Config) {s : PCState}
    (hfresh : ∀ q ∈ s.tracked, q.1 < s.nextId) (cs : List Centroid) :
    ∀ p ∈ (stepFrame cfg s cs).1.tracked, p.1 < (stepFrame cfg s cs).1.nextId := by
  intro p hp
  rw [stepFrame_tracked, countFrame_fst] at hp
  obtain ⟨p0, hp0, hflip⟩ := List.mem_map.mp hp
  rw [stepFrame_nextId]
  rw [← hflip, flipEntry_fst]
  exact assignLoop_keys_lt cs (by intro p1 hp1; cases hp1) hfresh p0 hp0

/-- Once a track's `counted` flag is true, it is still true after one more
frame (for the same id), provided ids in the live set are unique and below
the fresh-id counter. -/
lemma stepFrame_sticky (cfg : Config) {s : PCState} (hnodup : NodupKeys s.tracked)
    (hfresh : ∀ q ∈ s.tracked, q.1 < s.nextId) {id : Nat} {c : Centroid}
    (hmem : (id, c, true) ∈ s.tracked) (cs : List Centroid) :
    ∀ c' b, (id, c', b) ∈ (stepFrame cfg s cs).1.tracked → b = true := by
  intro c' b hb
  rw [stepFrame_tracked, countFrame_fst] at hb
  obtain ⟨p0, hp0, hflip⟩ := List.mem_map.mp hb
  have hflag : p0.2.2 = true := by
    rcases assignLoop_provenance s.tracked [] s.nextId cs p0 hp0 with h1 | h1 | h1
    · cases h1
    · obtain ⟨c0, _, x, hfm, _⟩ := h1
      have hin : (p0.1, x, p0.2.2) ∈ s.tracked := List.mem_of_find?_eq_some hfm
      have hkey : p0.1 = id := by
        have := congrArg Prod.fst hflip
        rw [flipEntry_fst] at this
        exact this
      rw [hkey] at hin
      have hun : (id, x, p0.2.2) = ((id, c, true) : TrackEntry) := by
        have h1 : id ∈ keysOf s.tracked := mem_keysOf.mpr ⟨(x, p0.2.2), hin⟩
        have : ∀ v1 v2, (id, v1) ∈ s.tracked → (id, v2) ∈ s.tracked → v1 = v2 := by
          intro v1 v2 hv1 hv2
          have hnd : (s.tracked.map Prod.fst).Nodup := hnodup
          have h12 := List.inj_on_of_nodup_map hnd hv1 hv2 rfl
          exact congrArg Prod.snd h12
        have h2 := this (x, p0.2.2) (c, true) hin hmem
        rw [h2]
      have := congrArg (fun t => t.2.2) hun
      simpa using this
    · have hkey : p0.1 = id := by
        have := congrArg Prod.fst hflip
        rw [flipEntry_fst] at this
        exact this
      have : id < s.nextId := hfresh _ hmem
      rw [hkey] at h1
      omega
  have : flipEntry cfg.direction cfg.linePosition p0 = p0 := flipEntry_of_counted hflag
  rw [this] at hflip
  have := congrArg (fun t => t.2.2) hflip
  simp only at this
  rw [← this]
  exact hflag

/-- Keys of the next frame's live set come from the previous live set or
are at least the previous fresh-id counter. -/
lemma stepFrame_key_provenance (cfg : Config) (s : PCState) (cs : List Centroid) :
    ∀ p ∈ (stepFrame cfg s cs).1.tracked, p.1 ∈ keysOf s.tracked ∨ s.nextId ≤ p.1 := by
  intro p hp
  rw [stepFrame_tracked, countFrame_fst] at hp
  obtain ⟨p0, hp0, hflip⟩ := List.mem_map.mp hp
  have hkey : p0.1 = p.1 := by
    have := congrArg Prod.fst hflip
    rw [flipEntry_fst] at this
    exact this
  rcases assignLoop_provenance s.tracked [] s.nextId cs p0 hp0 with h1 | h1 | h1
  · cases h1
  · obtain ⟨c0, _, x, hfm, _⟩ := h1
    exact Or.inl (hkey ▸ mem_keysOf.mpr ⟨(x, p0.2.2), List.mem_of_find?_eq_some hfm⟩)
  · exact Or.inr (hkey ▸ h1.1)

/-- In a dict with pairwise distinct keys, a key determines its value. -/
lemma nodupKeys_val_unique {d : List (Nat × α)} (h : NodupKeys d) {k : Nat}
    {v1 v2 : α} (h1 : (k, v1) ∈ d) (h2 : (k, v2) ∈ d) : v1 = v2 := by
  have hnd : (d.map Prod.fst).Nodup := h
  exact congrArg Prod.snd (List.inj_on_of_nodup_map hnd h1 h2 rfl)

/-! ### Whole-run lemmas -/

lemma runFrames_cons (cfg : Config) (s : PCState) (cs : List Centroid)
    (rest : List (List Centroid)) :
    runFrames cfg s (cs :: rest)
      = ((runFrames cfg (stepFrame cfg s cs).1 rest).1,
         (stepFrame cfg s cs).2 + (runFrames cfg (stepFrame cfg s cs).1 rest).2) := by
  simp [runFrames]

lemma runFrames_totalCount_mono (cfg : Config) (s : PCState)
    (frames : List (List Centroid)) :
    s.totalCount ≤ (runFrames cfg s frames).1.totalCount := by
  induction frames generalizing s with
  | nil => exact le_refl _
  | cons cs rest ih =>
      rw [runFrames_cons]
      exact le_trans (stepFrame_totalCount_mono cfg s cs) (ih _)

lemma runFrames_nextId_mono (cfg : Config) (s : PCState)
    (frames : List (List Centroid)) :
    s.nextId ≤ (runFrames cfg s frames).1.nextId := by
  induction frames generalizing s with
  | nil => exact le_refl _
  | cons cs rest ih =>
      rw [runFrames_cons]
      exact le_trans (stepFrame_nextId_mono cfg s cs) (ih _)

lemma runFrames_key_provenance (cfg : Config) (s : PCState)
    (frames : List (List Centroid)) :
    ∀ p ∈ (runFrames cfg s frames).1.tracked, p.1 ∈ keysOf s.tracked ∨ s.nextId ≤ p.1 := by
  induction frames generalizing s with
  | nil => exact fun p hp => Or.inl (mem_keysOf.mpr ⟨p.2, by simpa using hp⟩)
  | cons cs rest ih =>
      intro p hp
      rw [runFrames_cons] at hp
      rcases ih (stepFrame cfg s cs).1 p hp with h1 | h1
      · obtain ⟨v, hv⟩ := mem_keysOf.mp h1
        rcases stepFrame_key_provenance cfg s cs (p.1, v) hv with h2 | h2
        · exact Or.inl h2
        · exact Or.inr h2
      · exact Or.inr (le_trans (stepFrame_nextId_mono cfg s cs) h1)

/-- Across a whole run, a track whose `counted` flag is true keeps a true
flag for as long as its id stays in the live set. -/
lemma runFrames_sticky (cfg : Config) {s : PCState} (hnodup : NodupKeys s.tracked)
    (hfresh : ∀ q ∈ s.tracked, q.1 < s.nextId) {id : Nat} {c : Centroid}
    (hmem : (id, c, true) ∈ s.tracked) (frames : List (List Centroid)) :
    ∀ c' b, (id, c', b) ∈ (runFrames cfg s frames).1.tracked → b = true := by
  induction frames generalizing s c with
  | nil =>
      intro c' b hb
      have := nodupKeys_val_unique hnodup (show ((id, c', b) : TrackEntry) ∈ s.tracked from hb) hmem
      exact congrArg Prod.snd this
  | cons cs rest ih =>
      intro c' b hb
      rw [runFrames_cons] at hb
      by_cases hid : id ∈ keysOf (stepFrame cfg s cs).1.tracked
      · obtain ⟨v, hv⟩ := mem_keysOf.mp hid
        obtain ⟨vc, vb⟩ := v
        have hvb : vb = true := stepFrame_sticky cfg hnodup hfresh hmem cs vc vb hv
        exact ih (stepFrame_nodup cfg s cs) (stepFrame_keys_lt cfg hfresh cs)
          (hvb ▸ hv) c' b hb
      · exfalso
        rcases runFrames_key_provenance cfg (stepFrame cfg s cs).1 rest (id, c', b) hb with h1 | h1
        · exact hid h1
        · have h2 : id < s.nextId := hfresh _ hmem
          have h3 := stepFrame_nextId_mono cfg s cs
          omega

/-- The capacity-alert invariant: if `send_counter` agrees with the
indicator of `total_count > threshold_count`, one frame preserves this, and
the frame's notification count is the difference of the counters. -/
lemma stepFrame_sc_inv (cfg : Config) (s : PCState) (cs : List Centroid)
    (h : s.sendCounter = if cfg.thresholdCount < s.totalCount then 1 else 0) :
    (stepFrame cfg s cs).1.sendCounter
        = (if cfg.thresholdCount < (stepFrame cfg s cs).1.totalCount then 1 else 0)
      ∧ (stepFrame cfg s cs).2 + s.sendCounter = (stepFrame cfg s cs).1.sendCounter := by
  have hmono := stepFrame_totalCount_mono cfg s cs
  rw [stepFrame_sendCounter, stepFrame_sent, h]
  constructor <;> split_ifs <;> omega

/-- Whole-run version of the capacity-alert invariant. -/
lemma runFrames_sc_inv (cfg : Config) (s : PCState) (frames : List (List Centroid))
    (h : s.sendCounter = if cfg.thresholdCount < s.totalCount then 1 else 0) :
    (runFrames cfg s frames).1.sendCounter
        = (if cfg.thresholdCount < (runFrames cfg s frames).1.totalCount then 1 else 0)
      ∧ (runFrames cfg s frames).2 + s.sendCounter = (runFrames cfg s frames).1.sendCounter := by
  induction frames generalizing s with
  | nil => exact ⟨h, by simp [runFrames]⟩
  | cons cs rest ih =>
      obtain ⟨hs', hsent⟩ := stepFrame_sc_inv cfg s cs h
      obtain ⟨hfin, hrest⟩ := ih (stepFrame cfg s cs).1 hs'
      rw [runFrames_cons]
      refine ⟨hfin, ?_⟩
      dsimp only
      omega

lemma runFrames_append (cfg : Config) (s : PCState) (l1 l2 : List (List Centroid)) :
    runFrames cfg s (l1 ++ l2)
      = ((runFrames cfg (runFrames cfg s l1).1 l2).1,
         (runFrames cfg s l1).2 + (runFrames cfg (runFrames cfg s l1).1 l2).2) := by
  induction l1 generalizing s with
  | nil => simp [runFrames]
  | cons cs rest ih =>
      rw [List.cons_append, runFrames_cons, ih, runFrames_cons]
      simp [Nat.add_assoc]

/-- First-match semantics of `List.find?`: the first element satisfying the
predicate is returned. -/
lemma find?_first {p : α → Bool} (l1 : List α) (q : α) (l2 : List α)
    (hq : p q = true) (hl1 : ∀ r ∈ l1, p r = false) :
    (l1 ++ q :: l2).find? p = some q := by
  induction l1 with
  | nil => simp [List.find?_cons_of_pos _ hq]
  | cons a t ih =>
      rw [List.cons_append, List.find?_cons_of_neg]
      · exact ih (fun r hr => hl1 r (List.mem_cons_of_mem _ hr))
      · simp [hl1 a (List.mem_cons_self _ _)]

/-! ### Claim theorems -/

/-- C1 counterexample.  The claim says a detection is assigned to the first
track within distance 50 *that has not already been claimed by an earlier
detection of the same frame*, and that a detection with no such track spawns
a new track.  The code (`People_Counter.py` lines 122-132) scans only the
previous frame's `tracked` dict and never checks `new_tracked`, so with one
old track at (0,0) and two detections (0,0) and (10,0), both detections are
assigned to track 0 (the second overwrites the first) and no new track is
spawned, whereas the claim-modelled association (`assignFrameClaim`) gives
the first detection to track 0 and spawns track 1 for the second. -/
theorem C1_counterexample :
    assignFrame [(0, ((0 : Int), (0 : Int)), false)] 1
        [((0 : Int), (0 : Int)), ((10 : Int), (0 : Int))]
      = ([(0, ((10 : Int), (0 : Int)), false)], 1)
    ∧ assignFrameClaim [(0, ((0 : Int), (0 : Int)), false)] 1
        [((0 : Int), (0 : Int)), ((10 : Int), (0 : Int))]
      = ([(0, ((0 : Int), (0 : Int)), false), (1, ((10 : Int), (0 : Int)), false)], 2)
    ∧ assignFrame [(0, ((0 : Int), (0 : Int)), false)] 1
        [((0 : Int), (0 : Int)), ((10 : Int), (0 : Int))]
      ≠ assignFrameClaim [(0, ((0 : Int), (0 : Int)), false)] 1
        [((0 : Int), (0 : Int)), ((10 : Int), (0 : Int))] :=
  ⟨by decide, by decide, by decide⟩

/-- C1 (amended).  For every frame: each detection, in input order, is
assigned to the first existing track (in insertion order of the previous
frame's live set) whose squared centroid distance is below 2500 (i.e.
Euclidean distance below 50), regardless of whether that track was already
claimed by an earlier detection this frame (a later claim overwrites the
earlier assignment); a detection with no such track spawns a fresh track
with `counted = false`; every live entry of the next frame is either such a
claimed old track (old flag kept, centroid replaced by the claiming
detection) or such a fresh track; tracks claimed by no detection are
dropped; and the fresh-id counter advances by exactly the number of
unmatched detections. -/
theorem C1_track_association (tracked : List TrackEntry) (nextId : Nat)
    (cs : List Centroid) (hfresh : ∀ q ∈ tracked, q.1 < nextId) :
    (∀ c : Centroid, ∀ l1 l2 : List TrackEntry, ∀ q : TrackEntry,
        tracked = l1 ++ q :: l2 → dist2 c q.2.1 < 2500 →
        (∀ r ∈ l1, ¬ dist2 c r.2.1 < 2500) → findFirstMatch tracked c = some q)
    ∧ (∀ p ∈ (assignFrame tracked nextId cs).1,
        (∃ c ∈ cs, ∃ x, findFirstMatch tracked c = some (p.1, x, p.2.2) ∧ p.2.1 = c)
        ∨ (nextId ≤ p.1 ∧ p.2.2 = false ∧ p.2.1 ∈ cs
            ∧ findFirstMatch tracked p.2.1 = none))
    ∧ (∀ c ∈ cs, findFirstMatch tracked c = none →
        ∃ id, nextId ≤ id ∧ (id, c, false) ∈ (assignFrame tracked nextId cs).1)
    ∧ (∀ c ∈ cs, ∀ q, findFirstMatch tracked c = some q →
        q.1 ∈ keysOf (assignFrame tracked nextId cs).1)
    ∧ (∀ q ∈ tracked,
        (∀ c ∈ cs, ∀ q', findFirstMatch tracked c = some q' → q'.1 ≠ q.1) →
        q.1 ∉ keysOf (assignFrame tracked nextId cs).1)
    ∧ (assignFrame tracked nextId cs).2
        = nextId + (cs.filter (fun c => (findFirstMatch tracked c).isNone)).length := by
  refine ⟨?_, ?_, ?_, ?_, ?_, ?_⟩
  · intro c l1 l2 q heq hq hl1
    rw [heq]
    unfold findFirstMatch
    exact find?_first l1 q l2 (by simpa using hq) (fun r hr => by simpa using hl1 r hr)
  · intro p hp
    rcases assignLoop_provenance tracked [] nextId cs p hp with h1 | h1 | h1
    · cases h1
    · exact Or.inl h1
    · exact Or.inr h1
  · exact assignLoop_spawn cs hfresh
  · exact assignLoop_claimed tracked [] nextId cs
  · intro q hq hunclaimed hmem
    obtain ⟨v, hv⟩ := mem_keysOf.mp hmem
    rcases assignLoop_provenance tracked [] nextId cs (q.1, v) hv with h1 | h1 | h1
    · cases h1
    · obtain ⟨c, hc, x, hfm, _⟩ := h1
      exact hunclaimed c hc _ hfm rfl
    · have := hfresh q hq
      omega
  · exact assignLoop_nid_eq tracked [] nextId cs

/-- Witness for `C1_track_association` at a concrete input: the tracks
`exTracked`, fresh-id counter 6 and the detections `exDets` ((3,4) claims
track 0, (200,200) spawns track 6). -/
theorem C1_track_association_witness :
    (∀ q ∈ exTracked, q.1 < 6)
    ∧ ((∀ c : Centroid, ∀ l1 l2 : List TrackEntry, ∀ q : TrackEntry,
          exTracked = l1 ++ q :: l2 → dist2 c q.2.1 < 2500 →
          (∀ r ∈ l1, ¬ dist2 c r.2.1 < 2500) → findFirstMatch exTracked c = some q)
      ∧ (∀ p ∈ (assignFrame exTracked 6 exDets).1,
          (∃ c ∈ exDets, ∃ x, findFirstMatch exTracked c = some (p.1, x, p.2.2)
              ∧ p.2.1 = c)
          ∨ (6 ≤ p.1 ∧ p.2.2 = false ∧ p.2.1 ∈ exDets
              ∧ findFirstMatch exTracked p.2.1 = none))
      ∧ (∀ c ∈ exDets, findFirstMatch exTracked c = none →
          ∃ id, 6 ≤ id ∧ (id, c, false) ∈ (assignFrame exTracked 6 exDets).1)
      ∧ (∀ c ∈ exDets, ∀ q, findFirstMatch exTracked c = some q →
          q.1 ∈ keysOf (assignFrame exTracked 6 exDets).1)
      ∧ (∀ q ∈ exTracked,
          (∀ c ∈ exDets, ∀ q', findFirstMatch exTracked c = some q' → q'.1 ≠ q.1) →
          q.1 ∉ keysOf (assignFrame exTracked 6 exDets).1)
      ∧ (assignFrame exTracked 6 exDets).2
          = 6 + (exDets.filter (fun c => (findFirstMatch exTracked c).isNone)).length) :=
  ⟨by decide, C1_track_association exTracked 6 exDets (by decide)⟩

/-- C2: over one pipeline run the occupancy counter `total_count` is
monotonically non-decreasing; one frame increments it by exactly the number
of live tracks whose `counted` flag is false and whose centroid satisfies
the crossing predicate (each of which ends the frame with flag true, the
false-to-true transition); and once a track's flag is true it stays true for
as long as the id remains in the live set, so a track id contributes at most
one increment over its lifetime. -/
theorem C2_occupancy_counter (cfg : Config) (s : PCState)
    (frames : List (List Centroid)) (cs : List Centroid)
    (hnodup : NodupKeys s.tracked) (hfresh : ∀ q ∈ s.tracked, q.1 < s.nextId) :
    s.totalCount ≤ (runFrames cfg s frames).1.totalCount
    ∧ (stepFrame cfg s cs).1.totalCount
        = s.totalCount
          + ((assignFrame s.tracked s.nextId cs).1.filter
              (incrAt cfg.direction cfg.linePosition)).length
    ∧ (∀ p ∈ (assignFrame s.tracked s.nextId cs).1,
        incrAt cfg.direction cfg.linePosition p = true →
        p.2.2 = false ∧ (p.1, p.2.1, true) ∈ (stepFrame cfg s cs).1.tracked)
    ∧ (∀ id c, (id, c, true) ∈ s.tracked →
        ∀ c' b, (id, c', b) ∈ (runFrames cfg s frames).1.tracked → b = true) := by
  refine ⟨runFrames_totalCount_mono cfg s frames, ?_, ?_, ?_⟩
  · rw [stepFrame_totalCount, countFrame_snd]
  · intro p hp hincr
    have hflag : p.2.2 = false := by
      unfold incrAt at hincr
      rcases Bool.and_eq_true_iff.mp hincr with ⟨h1, _⟩
      simpa using h1
    refine ⟨hflag, ?_⟩
    rw [stepFrame_tracked, countFrame_fst]
    refine List.mem_map.mpr ⟨p, hp, ?_⟩
    unfold incrAt at hincr
    unfold flipEntry
    rw [if_pos hincr]
  · intro id c hmem c' b hb
    exact runFrames_sticky cfg hnodup hfresh hmem frames c' b hb

/-- Witness for `C2_occupancy_counter` at the concrete configuration
`exCfg`, state `exState`, frames `exFrames` and detections `exDets`. -/
theorem C2_occupancy_counter_witness :
    (NodupKeys exState.tracked ∧ ∀ q ∈ exState.tracked, q.1 < exState.nextId)
    ∧ (exState.totalCount ≤ (runFrames exCfg exState exFrames).1.totalCount
      ∧ (stepFrame exCfg exState exDets).1.totalCount
          = exState.totalCount
            + ((assignFrame exState.tracked exState.nextId exDets).1.filter
                (incrAt exCfg.direction exCfg.linePosition)).length
      ∧ (∀ p ∈ (assignFrame exState.tracked exState.nextId exDets).1,
          incrAt exCfg.direction exCfg.linePosition p = true →
          p.2.2 = false ∧ (p.1, p.2.1, true) ∈ (stepFrame exCfg exState exDets).1.tracked)
      ∧ (∀ id c, (id, c, true) ∈ exState.tracked →
          ∀ c' b, (id, c', b) ∈ (runFrames exCfg exState exFrames).1.tracked → b = true)) :=
  ⟨⟨by show (List.map Prod.fst exState.tracked).Nodup; decide, by decide⟩,
   C2_occupancy_counter exCfg exState exFrames exDets
     (by show (List.map Prod.fst exState.tracked).Nodup; decide) (by decide)⟩

/-- C3: the crossing predicate is exactly `line < y` for direction `down`
and `y < line` for direction `up`; and in the scenario with line 300,
direction `down` and a single track whose centroid moves through y = 250,
280, 310, 340, the counter is 0 after the 250 and 280 frames, becomes 1 at
the 310 frame and stays 1 at 340, with the single track 0 counted. -/
theorem C3_crossing_predicate :
    (∀ (l : Int) (c : Centroid), crosses "down" l c = decide (l < c.2))
    ∧ (∀ (l : Int) (c : Centroid), crosses "up" l c = decide (c.2 < l))
    ∧ (runFrames ⟨"down", 300, 30⟩ initState [[(100, 250)]]).1.totalCount = 0
    ∧ (runFrames ⟨"down", 300, 30⟩ initState [[(100, 250)], [(100, 280)]]).1.totalCount = 0
    ∧ (runFrames ⟨"down", 300, 30⟩ initState
        [[(100, 250)], [(100, 280)], [(100, 310)]]).1.totalCount = 1
    ∧ (runFrames ⟨"down", 300, 30⟩ initState
        [[(100, 250)], [(100, 280)], [(100, 310)], [(100, 340)]]).1.totalCount = 1
    ∧ (runFrames ⟨"down", 300, 30⟩ initState
        [[(100, 250)], [(100, 280)], [(100, 310)], [(100, 340)]]).1.tracked
      = [(0, (100, 340), true)] :=
  ⟨fun l c => rfl, fun l c => rfl, by decide, by decide, by decide, by decide, by decide⟩

/-- C4: both threshold tables classify by the same ascending boundaries:
density below 1e-4 gives Low/Stable, in [1e-4, 1.5e-4) gives
Medium/Unstable, in [1.5e-4, 2e-4) gives High/Congested, and at or above
2e-4 gives Critical/Critical.  Each tier pair is attained exactly on its
interval, so the risk table and the status table share identical boundary
values. -/
theorem C4_density_tier_tables (d : ℚ) :
    ((get_crowd_risk d = "Low" ∧ get_crowd_status d = "Stable") ↔ d < 0.0001)
    ∧ ((get_crowd_risk d = "Medium" ∧ get_crowd_status d = "Unstable")
        ↔ 0.0001 ≤ d ∧ d < 0.00015)
    ∧ ((get_crowd_risk d = "High" ∧ get_crowd_status d = "Congested")
        ↔ 0.00015 ≤ d ∧ d < 0.0002)
    ∧ ((get_crowd_risk d = "Critical" ∧ get_crowd_status d = "Critical")
        ↔ 0.0002 ≤ d) := by
  unfold get_crowd_risk get_crowd_status
  split_ifs with h1 h2 h3
  · refine ⟨iff_of_true ⟨rfl, rfl⟩ h1, iff_of_false ?_ ?_, iff_of_false ?_ ?_,
      iff_of_false ?_ ?_⟩
    · rintro ⟨h, -⟩
      exact absurd h (by decide)
    · rintro ⟨h, -⟩
      linarith
    · rintro ⟨h, -⟩
      exact absurd h (by decide)
    · rintro ⟨h, -⟩
      linarith
    · rintro ⟨h, -⟩
      exact absurd h (by decide)
    · intro h
      linarith
  · refine ⟨iff_of_false ?_ ?_, iff_of_true ⟨rfl, rfl⟩ ⟨not_lt.mp h1, h2⟩,
      iff_of_false ?_ ?_, iff_of_false ?_ ?_⟩
    · rintro ⟨h, -⟩
      exact absurd h (by decide)
    · intro h
      exact h1 h
    · rintro ⟨h, -⟩
      exact absurd h (by decide)
    · rintro ⟨h, -⟩
      linarith
    · rintro ⟨h, -⟩
      exact absurd h (by decide)
    · intro h
      linarith
  · refine ⟨iff_of_false ?_ ?_, iff_of_false ?_ ?_,
      iff_of_true ⟨rfl, rfl⟩ ⟨not_lt.mp h2, h3⟩, iff_of_false ?_ ?_⟩
    · rintro ⟨h, -⟩
      exact absurd h (by decide)
    · intro h
      exact h1 h
    · rintro ⟨h, -⟩
      exact absurd h (by decide)
    · rintro ⟨-, hb⟩
      exact h2 hb
    · rintro ⟨h, -⟩
      exact absurd h (by decide)
    · intro h
      linarith
  · refine ⟨iff_of_false ?_ ?_, iff_of_false ?_ ?_, iff_of_false ?_ ?_,
      iff_of_true ⟨rfl, rfl⟩ (not_lt.mp h3)⟩
    · rintro ⟨h, -⟩
      exact absurd h (by decide)
    · intro h
      exact h1 h
    · rintro ⟨h, -⟩
      exact absurd h (by decide)
    · rintro ⟨-, hb⟩
      exact h2 hb
    · rintro ⟨h, -⟩
      exact absurd h (by decide)
    · rintro ⟨-, hb⟩
      exact h3 hb

/-- The risk tier is monotone in the density. -/
lemma get_crowd_risk_tier_mono {d1 d2 : ℚ} (h : d1 ≤ d2) :
    tierIndex (get_crowd_risk d1) ≤ tierIndex (get_crowd_risk d2) := by
  have tL : tierIndex "Low" = 0 := rfl
  have tM : tierIndex "Medium" = 1 := rfl
  have tH : tierIndex "High" = 2 := rfl
  have tC : tierIndex "Critical" = 3 := rfl
  unfold get_crowd_risk
  split_ifs <;> simp only [tL, tM, tH, tC] <;> first | omega | linarith

/-- C5: for every fixed positive frame area, the risk tier is monotone in
the person count: raising the person count never lowers the tier in the
order Low < Medium < High < Critical. -/
theorem C5_risk_monotone_in_count (c1 c2 : ℕ) (area : ℚ)
    (hpos : 0 < area) (hle : c1 ≤ c2) :
    tierIndex (get_crowd_risk ((c1 : ℚ) / area))
      ≤ tierIndex (get_crowd_risk ((c2 : ℚ) / area)) := by
  have hc : (c1 : ℚ) ≤ (c2 : ℚ) := by exact_mod_cast hle
  exact get_crowd_risk_tier_mono (by gcongr)

/-- Witness for `C5_risk_monotone_in_count` with counts 10 and 50 on the
resized frame area. -/
theorem C5_risk_monotone_in_count_witness :
    (0 : ℚ) < 307200 ∧ (10 : ℕ) ≤ 50
    ∧ tierIndex (get_crowd_risk (((10 : ℕ) : ℚ) / 307200))
        ≤ tierIndex (get_crowd_risk (((50 : ℕ) : ℚ) / 307200)) :=
  ⟨by norm_num, by norm_num,
   C5_risk_monotone_in_count 10 50 307200 (by norm_num) (by norm_num)⟩

/-- C6: the frame-rate control sleeps for exactly
`frame_interval - processing_time` when the processing time is strictly
below the frame interval, and otherwise sleeps 0 and warns exactly when the
source is not the live camera; in particular a live-camera source never
warns. -/
theorem C6_pacing_scheduler (showCam : Bool) (fi pt : ℚ) :
    frameRateControl showCam fi pt
        = (if pt < fi then (fi - pt, false) else (0, !showCam))
    ∧ (frameRateControl true fi pt).2 = false := by
  constructor
  · simp only [frameRateControl]
    by_cases h : pt < fi
    · rw [if_pos (by linarith : (0 : ℚ) < fi - pt), if_pos h]
    · rw [if_neg (by intro hc; exact h (by linarith) : ¬ (0 : ℚ) < fi - pt), if_neg h]
      cases showCam <;> simp
  · simp only [frameRateControl]
    split_ifs with ha hb
    · rfl
    · exact absurd hb (by decide)
    · rfl

/-- After a prefix of successful reads and writes, a broken pipe on the next
write stops the capture loop: the frame that hit the broken pipe is the last
one read. -/
lemma captureLoopFramesRead_ok_run (pre post : List (Bool × WriteResult))
    (hpre : ∀ it ∈ pre, it.1 = true ∧ it.2 = WriteResult.ok) :
    captureLoopFramesRead (pre ++ (true, WriteResult.brokenPipe) :: post)
      = pre.length + 1 := by
  induction pre with
  | nil => simp [captureLoopFramesRead]
  | cons it t ih =>
      obtain ⟨ret, w⟩ := it
      have h1 : ret = true := (hpre (ret, w) (List.mem_cons_self _ _)).1
      have h2 : w = WriteResult.ok := (hpre (ret, w) (List.mem_cons_self _ _)).2
      subst h1
      subst h2
      have ih' := ih (fun x hx => hpre x (List.mem_cons_of_mem _ hx))
      rw [List.cons_append]
      show 1 + captureLoopFramesRead (t ++ (true, WriteResult.brokenPipe) :: post)
        = (t.length + 1) + 1
      rw [ih']
      omega

/-- C7: when a write to the muxing subprocess hits a broken pipe, the capture
loop terminates (exactly the frames up to and including the failing one are
read, none of the frames offered afterwards), the subprocess is spawned
exactly once for the session (never respawned), and the cleanup block always
runs: the capture is released, and when the subprocess is still alive its
stdin is closed and the process is terminated and waited on.  The
`BrokenPipeError` is caught inside the loop, so it never propagates
(modelled by `captureLoopFramesRead` being total). -/
theorem C7_broken_pipe_terminates (pre post : List (Bool × WriteResult))
    (alive : Bool) (hpre : ∀ it ∈ pre, it.1 = true ∧ it.2 = WriteResult.ok) :
    (runStreamSession (pre ++ (true, WriteResult.brokenPipe) :: post) alive).framesRead
        = pre.length + 1
    ∧ (runStreamSession (pre ++ (true, WriteResult.brokenPipe) :: post) alive).ffmpegSpawns
        = 1
    ∧ CleanupAction.releaseCapture
        ∈ (runStreamSession (pre ++ (true, WriteResult.brokenPipe) :: post) alive).cleanup
    ∧ (alive = true →
        CleanupAction.closeStdin
            ∈ (runStreamSession (pre ++ (true, WriteResult.brokenPipe) :: post) alive).cleanup
        ∧ CleanupAction.terminateProc
            ∈ (runStreamSession (pre ++ (true, WriteResult.brokenPipe) :: post) alive).cleanup
        ∧ CleanupAction.waitProc
            ∈ (runStreamSession (pre ++ (true, WriteResult.brokenPipe) :: post) alive).cleanup) := by
  refine ⟨captureLoopFramesRead_ok_run pre post hpre, rfl, ?_, ?_⟩
  · show CleanupAction.releaseCapture ∈ cleanupSteps alive
    simp [cleanupSteps]
  · intro halive
    subst halive
    refine ⟨?_, ?_, ?_⟩ <;> · show _ ∈ cleanupSteps true
                              simp [cleanupSteps]

/-- Witness for `C7_broken_pipe_terminates`: one good iteration, then the
broken pipe, with one more iteration offered but never reached, and the
subprocess still alive at exit. -/
theorem C7_broken_pipe_terminates_witness :
    (∀ it ∈ exPre, it.1 = true ∧ it.2 = WriteResult.ok)
    ∧ ((runStreamSession (exPre ++ (true, WriteResult.brokenPipe) :: exPost) true).framesRead
          = exPre.length + 1
      ∧ (runStreamSession (exPre ++ (true, WriteResult.brokenPipe) :: exPost) true).ffmpegSpawns
          = 1
      ∧ CleanupAction.releaseCapture
          ∈ (runStreamSession (exPre ++ (true, WriteResult.brokenPipe) :: exPost) true).cleanup
      ∧ (true = true →
          CleanupAction.closeStdin
              ∈ (runStreamSession (exPre ++ (true, WriteResult.brokenPipe) :: exPost) true).cleanup
          ∧ CleanupAction.terminateProc
              ∈ (runStreamSession (exPre ++ (true, WriteResult.brokenPipe) :: exPost) true).cleanup
          ∧ CleanupAction.waitProc
              ∈ (runStreamSession (exPre ++ (true, WriteResult.brokenPipe) :: exPost) true).cleanup)) :=
  ⟨by decide, C7_broken_pipe_terminates exPre exPost true (by decide)⟩

/-- C8: starting from the initial state, the cumulative number of capacity
notifications after any prefix of frames equals 1 exactly when the occupancy
counter has exceeded the threshold by then, and 0 otherwise; the counter is
non-decreasing over prefixes; and a whole session sends at most one
notification.  Together these say the alert fires exactly once, on the first
frame where the counter exceeds the threshold, with no notification on
frames at or below the threshold and none after the first fire. -/
theorem C8_capacity_alert_single_fire (cfg : Config) (frames : List (List Centroid)) :
    (∀ k : Nat, (runFrames cfg initState (frames.take k)).2
        = if cfg.thresholdCount < (runFrames cfg initState (frames.take k)).1.totalCount
          then 1 else 0)
    ∧ (∀ k : Nat, (runFrames cfg initState (frames.take k)).1.totalCount
        ≤ (runFrames cfg initState (frames.take (k + 1))).1.totalCount)
    ∧ (runFrames cfg initState frames).2 ≤ 1 := by
  have hinv : initState.sendCounter
      = if cfg.thresholdCount < initState.totalCount then 1 else 0 := by
    show (0 : ℕ) = if cfg.thresholdCount < 0 then 1 else 0
    rw [if_neg (Nat.not_lt_zero _)]
  have key : ∀ l : List (List Centroid), (runFrames cfg initState l).2
      = if cfg.thresholdCount < (runFrames cfg initState l).1.totalCount then 1 else 0 := by
    intro l
    obtain ⟨ha, hb⟩ := runFrames_sc_inv cfg initState l hinv
    rw [ha] at hb
    simpa [initState] using hb
  refine ⟨fun k => key _, ?_, ?_⟩
  · intro k
    rw [List.take_succ, runFrames_append]
    exact runFrames_totalCount_mono cfg _ _
  · rw [key frames]
    split <;> omega

/-- C9: the face-match path runs exactly on frames whose index is a multiple
of the cadence 30, with a non-empty reference registry and at least one
detected person; in every other situation the recognized-identity list for
the frame is empty. -/
theorem C9_face_match_gate (registry : List String) (fc pc : Nat) (res : List String) :
    (faceMatchGate registry fc pc = true
        ↔ registry ≠ [] ∧ (∃ k, fc = 30 * k) ∧ 0 < pc)
    ∧ (faceMatchGate registry fc pc = false →
        detectedPersonsResult registry fc pc res = [])
    ∧ (registry = [] → detectedPersonsResult registry fc pc res = [])
    ∧ (pc = 0 → detectedPersonsResult registry fc pc res = [])
    ∧ (fc % 30 ≠ 0 → detectedPersonsResult registry fc pc res = []) := by
  have hgate : faceMatchGate registry fc pc = true
      ↔ registry ≠ [] ∧ (∃ k, fc = 30 * k) ∧ 0 < pc := by
    unfold faceMatchGate
    rw [Bool.and_eq_true, Bool.and_eq_true]
    constructor
    · rintro ⟨⟨hr, hm⟩, hp⟩
      refine ⟨?_, ?_, ?_⟩
      · intro hcontra
        rw [hcontra] at hr
        simp at hr
      · have hmod : fc % 30 = 0 := beq_iff_eq.mp hm
        exact ⟨fc / 30, by omega⟩
      · exact of_decide_eq_true hp
    · rintro ⟨hr, ⟨k, hk⟩, hp⟩
      refine ⟨⟨?_, ?_⟩, decide_eq_true hp⟩
      · cases registry with
        | nil => exact absurd rfl hr
        | cons a t => rfl
      · refine beq_iff_eq.mpr ?_
        omega
  refine ⟨hgate, ?_, ?_, ?_, ?_⟩
  · intro hfalse
    simp [detectedPersonsResult, hfalse]
  · intro hreg
    simp [detectedPersonsResult, faceMatchGate, hreg]
  · intro hpc
    simp [detectedPersonsResult, faceMatchGate, hpc]
  · intro hmod
    have h0 : (fc % 30 == 0) = false := beq_eq_false_iff_ne.mpr hmod
    simp [detectedPersonsResult, faceMatchGate, h0]

/-- C10: the per-frame density is total: zero frame area yields density 0
(the guarded branch), positive frame area yields person count divided by
area, and on the pipeline's actual resized 640x480 frame the density is
always count / 307200. -/
theorem C10_density_guarded (pc fa : ℕ) :
    (fa = 0 → densityOf pc fa = 0)
    ∧ (0 < fa → densityOf pc fa = (pc : ℚ) / fa)
    ∧ densityOf pc resizedFrameArea = (pc : ℚ) / 307200 := by
  refine ⟨?_, ?_, ?_⟩
  · intro h
    unfold densityOf
    rw [if_neg (by omega)]
  · intro h
    unfold densityOf
    rw [if_pos h]
  · unfold densityOf resizedFrameArea
    rw [if_pos (by norm_num)]
    norm_num

end DhristiAI
